import Mathlib

/-!
Verification of the natural-language specification of `src/store.js`
("The Agora": an in-memory data store plus HTML-rendering helpers for a
debate-forum protoptype) against a shallow embedding of that file.

Modelling conventions, all stated next to the definitions they concern:
* JS strings are `String`, JS numbers that hold counters are `Nat` where the
  code only ever increments them and `Int` where it also decrements;
  timestamps (`Date.now()`, `createdAt` ISO strings) are `Int` milliseconds
  threaded explicitly.
* JS objects used as key-value maps (`args`, `votes`) are association lists
  `List (Nat × α)` in insertion order: writing an existing key keeps its
  position, a new key is appended, and `for … in` iterates in that order,
  which is how JS enumerates the non-numeric string keys `uid()` produces.
* `uid()` (a timestamp plus randomness) is modelled by a counter `nextUid`
  held in the store.  Its one relevant property is that a generated id never
  collides with any identifier already in use, including identifiers a
  caller supplied for absent records; the counter is raised past every
  caller-supplied key to model exactly that.
* `localStorage` persistence (`save`/`load`) changes no in-memory state and
  swallows its own failures, so it is not modelled; the in-memory
  collections are the state.
-/

set_option maxRecDepth 200000

namespace Agora

/-- A vote direction, `'up' | 'down'`: the two values the public API
documents for `vote(argId, dir)`. -/
inductive Dir where
  | up
  | down
deriving DecidableEq, Repr

/-- A per-argument vote record `{ up, down, userVote }`; `userVote` is
`null | 'up' | 'down'`, modelled as `Option Dir`. -/
structure VoteRec where
  up : Int
  down : Int
  userVote : Option Dir
deriving DecidableEq, Repr

/-- A post object as built by `createPost` (store.js lines 53-68). -/
structure Post where
  id : Nat
  type : String
  title : String
  body : String
  tags : List String
  position : Option String
  confidence : Option String
  whatWouldChangeMyMind : Option String
  author : String
  createdAt : Int
  argCount : Nat
  forCount : Nat
  againstCount : Nat
  mindChanges : Nat
deriving DecidableEq, Repr

/-- An argument object as built by `createArgument` (store.js lines 105-114).
`side` is the caller-supplied string, stored verbatim. -/
structure Argument where
  id : Nat
  postId : Nat
  side : String
  body : String
  author : String
  createdAt : Int
  steelmanned : Bool
  steelmanCount : Int
deriving DecidableEq, Repr

/-- The argument to `createPost({type, title, body, tags, position, confidence,
openingArgument, whatWouldChangeMyMind})`.  `tags := none` models a caller
omitting the `tags` property. -/
structure PostSpec where
  type : String
  title : String
  body : String
  tags : Option (List String)
  position : Option String
  confidence : Option String
  openingArgument : Option String
  whatWouldChangeMyMind : Option String
deriving DecidableEq, Repr

/-- The argument to `createArgument(postId, {side, body, author,
whatWouldChangeMyMind})`.  The code never stores `whatWouldChangeMyMind` on
the argument object; it is kept here only to mirror the call shape. -/
structure ArgSpec where
  side : String
  body : String
  author : Option String
  whatWouldChangeMyMind : Option String
deriving DecidableEq, Repr

/-- The module state: the four collections of store.js lines 37-44 plus the
current-post pointer and the uid counter. -/
structure Store where
  posts : List Post
  args : List (Nat × List Argument)
  allTags : List String
  votes : List (Nat × VoteRec)
  currentPost : Option Nat
  nextUid : Nat
deriving DecidableEq, Repr

/-- First-match lookup in a JS-object-as-map association list. -/
def lookupA {α : Type} : List (Nat × α) → Nat → Option α
  | [], _ => none
  | (k, v) :: rest, key => if k = key then some v else lookupA rest key

/-- JS property write `obj[key] = v`: an existing key keeps its position in
enumeration order, a new key is appended at the end. -/
def setA {α : Type} : List (Nat × α) → Nat → α → List (Nat × α)
  | [], key, v => [(key, v)]
  | (k, w) :: rest, key, v =>
    if k = key then (k, v) :: rest else (k, w) :: setA rest key v

/-- In-place mutation of the first post whose `id` matches, as done through
the object reference `getPost(postId)` returns. -/
def updateFirstPost : List Post → Nat → (Post → Post) → List Post
  | [], _, _ => []
  | p :: rest, pid, f =>
    if p.id = pid then f p :: rest else p :: updateFirstPost rest pid f

/-- JS `x || d` for an optional string: `undefined`, `null` and the empty
string (the falsy strings) all fall back to `d`. -/
def jsOrStr : Option String → String → String
  | none, d => d
  | some s, d => if s = "" then d else s

/-- JS `x || null` for an optional string: `some ""` is falsy and becomes
`none`. -/
def jsOrNull : Option String → Option String
  | none => none
  | some s => if s = "" then none else some s

/-- JS `String.prototype.trim`: strip whitespace from both ends. -/
def jsTrim (s : String) : String :=
  (((s.data.dropWhile Char.isWhitespace).reverse.dropWhile
      Char.isWhitespace).reverse).asString

/-- The default tag vocabulary (store.js lines 39-43). -/
def defaultTags : List String :=
  ["democracy", "free speech", "ethics", "economics", "philosophy",
   "technology", "AI", "climate", "justice", "history", "law", "policy",
   "science", "religion", "capitalism", "equality", "rights", "education"]

/-- The store as it loads with nothing persisted: the `load` fallbacks of
store.js lines 37-44. -/
def initialStore : Store :=
  { posts := [], args := [], allTags := defaultTags, votes := [],
    currentPost := none, nextUid := 0 }

/-- `getPost(id)`: first post with that id, else `null` (line 90-92). -/
def getPost (s : Store) (id : Nat) : Option Post :=
  s.posts.find? (fun p => p.id == id)

/-- `getAllPosts()` (line 94-96); the defensive copy is the same list. -/
def getAllPosts (s : Store) : List Post := s.posts

/-- `getPostsByType(type)` (line 98-100). -/
def getPostsByType (s : Store) (ty : String) : List Post :=
  s.posts.filter (fun p => p.type == ty)

/-- `getArguments(postId)` (line 136-138): the list under that key, else `[]`
(an existing empty list is truthy and is returned as is, which coincides). -/
def getArguments (s : Store) (postId : Nat) : List Argument :=
  (lookupA s.args postId).getD []

/-- `getAllTags()` (line 203-205). -/
def getAllTags (s : Store) : List String := s.allTags

/-- The vote record `createArgument` installs (line 130) and `vote`/`getVotes`
fall back to (lines 143, 159). -/
def initVote : VoteRec := { up := 0, down := 0, userVote := none }

/-- `getVotes(argId)` (line 158-160). -/
def getVotes (s : Store) (argId : Nat) : VoteRec :=
  (lookupA s.votes argId).getD initVote

/-- The mutation `vote(argId, dir)` performs on one record (lines 145-153):
same direction again decrements it and clears `userVote`; otherwise the
previously voted direction (if any) is decremented, `dir` is incremented and
recorded. -/
def voteStep (v : VoteRec) (dir : Dir) : VoteRec :=
  if v.userVote = some dir then
    match dir with
    | .up => { v with up := v.up - 1, userVote := none }
    | .down => { v with down := v.down - 1, userVote := none }
  else
    let v1 := match v.userVote with
      | some .up => { v with up := v.up - 1 }
      | some .down => { v with down := v.down - 1 }
      | none => v
    match dir with
    | .up => { v1 with up := v1.up + 1, userVote := some .up }
    | .down => { v1 with down := v1.down + 1, userVote := some .down }

/-- `vote(argId, dir)` (lines 142-156): install a fresh record if the key is
absent, apply `voteStep` to it, store and return the result. -/
def vote (s : Store) (argId : Nat) (dir : Dir) : VoteRec × Store :=
  let v0 := (lookupA s.votes argId).getD initVote
  let v1 := voteStep v0 dir
  (v1, { s with votes := setA s.votes argId v1 })

/-- Lines 122-125: the counter bumps `createArgument` applies to the owning
post through the reference `getPost` returns. -/
def bumpCounts (sd : String) (p : Post) : Post :=
  { p with
    argCount := p.argCount + 1,
    forCount := p.forCount + (if sd = "for" then 1 else 0),
    againstCount := p.againstCount + (if sd = "against" then 1 else 0) }

/-- `createArgument(postId, spec)` (lines 104-134).  The `nextUid` raise past
`postId` models only that `uid()` never generates an identifier equal to one
a caller already used as a key (see the module comment). -/
def createArgument (s : Store) (postId : Nat) (spec : ArgSpec) (t : Int) :
    Argument × Store :=
  let s0 : Store := { s with nextUid := max s.nextUid (postId + 1) }
  let arg : Argument :=
    { id := s0.nextUid, postId := postId, side := spec.side, body := spec.body,
      author := jsOrStr spec.author "You", createdAt := t,
      steelmanned := false, steelmanCount := 0 }
  let args' := setA s0.args postId (arg :: (lookupA s0.args postId).getD [])
  let posts' := updateFirstPost s0.posts postId (bumpCounts spec.side)
  let votes' := setA s0.votes arg.id initVote
  (arg, { s0 with posts := posts', args := args', votes := votes',
                  nextUid := s0.nextUid + 1 })

/-- Line 74, `tags.forEach(t => { if (!allTags.includes(t)) allTags.push(t) })`:
register each supplied tag not already known, left to right. -/
def registerTags (acc : List String) (ts : List String) : List String :=
  ts.foldl (fun acc t => if t ∈ acc then acc else acc ++ [t]) acc

/-- The post object lines 53-68 build. -/
def mkPost (s : Store) (spec : PostSpec) (t : Int) : Post :=
  { id := s.nextUid, type := spec.type, title := spec.title,
    body := spec.body, tags := spec.tags.getD [],
    position := jsOrNull spec.position,
    confidence := jsOrNull spec.confidence,
    whatWouldChangeMyMind := jsOrNull spec.whatWouldChangeMyMind,
    author := "You", createdAt := t,
    argCount := 0, forCount := 0, againstCount := 0, mindChanges := 0 }

/-- Line 80: `position === 'for' || position === 'against' ? position : 'for'`. -/
def openingSide (position : Option String) : String :=
  if position = some "for" then "for"
  else if position = some "against" then "against"
  else "for"

/-- `createPost(spec)` (lines 52-88).  The post is built and prepended first
(lines 53-71); if the caller omitted `tags`, line 74 then throws a
`TypeError` (`tags.forEach` on `undefined`) with the post already inserted,
modelled as an `Except.error` alongside the partially mutated store;
otherwise new tags are registered and a non-blank opening argument is
attached through `createArgument` with the position coerced into a side. -/
def createPost (s : Store) (spec : PostSpec) (t : Int) :
    Except String Post × Store :=
  let post := mkPost s spec t
  let s1 : Store := { s with posts := post :: s.posts, nextUid := s.nextUid + 1 }
  match spec.tags with
  | none => (.error "TypeError: tags is undefined", s1)
  | some ts =>
    let s2 : Store := { s1 with allTags := registerTags s1.allTags ts }
    match spec.openingArgument with
    | none => (.ok post, s2)
    | some oa =>
      if jsTrim oa = "" then (.ok post, s2)
      else
        let s3 := (createArgument s2 post.id
          { side := openingSide spec.position, body := oa, author := some "You",
            whatWouldChangeMyMind := spec.whatWouldChangeMyMind } t).2
        (.ok post, s3)

/-- Lines 168-169: flip `steelmanned`, then move `steelmanCount` by `+1` when
the new flag is set and `-1` when it is cleared. -/
def toggleArg (a : Argument) : Argument :=
  let b := !a.steelmanned
  { a with steelmanned := b,
           steelmanCount := a.steelmanCount + (if b then 1 else -1) }

/-- Toggle the first argument with this id inside one post's list: `some` of
the new list and the returned flag, or `none` if the id is not there
(the `find` of line 166). -/
def toggleInList (argId : Nat) : List Argument → Option (List Argument × Bool)
  | [] => none
  | a :: rest =>
    if a.id = argId then
      some (toggleArg a :: rest, (toggleArg a).steelmanned)
    else
      match toggleInList argId rest with
      | some (rest', b) => some (a :: rest', b)
      | none => none

/-- The `for (const postId in args)` scan of lines 165-173, in key insertion
order. -/
def toggleScan (argId : Nat) :
    List (Nat × List Argument) → Option (List (Nat × List Argument) × Bool)
  | [] => none
  | (pid, l) :: rest =>
    match toggleInList argId l with
    | some (l', b) => some ((pid, l') :: rest, b)
    | none =>
      match toggleScan argId rest with
      | some (rest', b) => some ((pid, l) :: rest', b)
      | none => none

/-- `toggleSteelman(argId)` (lines 164-175): flip the first matching
argument's flag, adjust its count by `±1`, return the new flag; `false` and
no change when no argument matches anywhere. -/
def toggleSteelman (s : Store) (argId : Nat) : Bool × Store :=
  match toggleScan argId s.args with
  | some (args', b) => (b, { s with args := args' })
  | none => (false, s)

/-- Line 182: `post.mindChanges++`. -/
def bumpMind (p : Post) : Post := { p with mindChanges := p.mindChanges + 1 }

/-- `declareMindChange(postId, text)` (lines 179-187): bump the post's
counter if it exists; the text is only logged. -/
def declareMindChange (s : Store) (postId : Nat) (_text : String) : Store :=
  { s with posts := updateFirstPost s.posts postId bumpMind }

/-- `setCurrentPost(postId)` (lines 192-194). -/
def setCurrentPost (s : Store) (postId : Nat) : Store :=
  { s with currentPost := some postId }

/-- `getCurrentPost()` (lines 196-199): resolve the pointer, `null` if it is
unset or dangling. -/
def getCurrentPost (s : Store) : Option Post :=
  match s.currentPost with
  | none => none
  | some id => getPost s id

/-- One public mutating call, with the timestamp `Date.now()` would supply. -/
inductive Op where
  | createPost (spec : PostSpec) (t : Int)
  | createArgument (postId : Nat) (spec : ArgSpec) (t : Int)
  | vote (argId : Nat) (dir : Dir)
  | toggleSteelman (argId : Nat)
  | declareMindChange (postId : Nat) (text : String)
  | setCurrentPost (postId : Nat)
deriving Repr

/-- The state transition of one public call (return values dropped). -/
def step (s : Store) (op : Op) : Store :=
  match op with
  | .createPost spec t => (createPost s spec t).2
  | .createArgument pid spec t => (createArgument s pid spec t).2
  | .vote argId dir => (vote s argId dir).2
  | .toggleSteelman argId => (toggleSteelman s argId).2
  | .declareMindChange pid txt => declareMindChange s pid txt
  | .setCurrentPost pid => setCurrentPost s pid

/-- A store producible from the empty store by some sequence of public
calls. -/
def Reachable (s : Store) : Prop :=
  ∃ ops : List Op, s = ops.foldl step initialStore

/-! ### Render helpers (store.js lines 207-299)

The JS template literals are transcribed as explicit concatenations; each
`${...}` interpolation becomes a `++` argument. -/

/-- One character of `escHtml` (lines 293-299).  The source applies four
sequential global replaces (`&`, `<`, `>`, `"` in that order); since no
replacement text contains a character a later pass replaces, the composition
equals this single character-wise pass. -/
def escChar (c : Char) : String :=
  if c = '&' then "&amp;"
  else if c = '<' then "&lt;"
  else if c = '>' then "&gt;"
  else if c = '"' then "&quot;"
  else String.singleton c

def escList : List Char → String
  | [] => ""
  | c :: cs => escChar c ++ escList cs

/-- `escHtml(str)` (lines 293-299). -/
def escHtml (s : String) : String := escList s.data

def nl2brList : List Char → String
  | [] => ""
  | c :: cs => (if c = '\n' then "<br>" else String.singleton c) ++ nl2brList cs

/-- `.replace(/\n/g, '<br>')` as applied on line 277. -/
def nl2br (s : String) : String := nl2brList s.data

/-- `str.slice(0, n)`. -/
def jsSlice (s : String) (n : Nat) : String := (s.data.take n).asString

/-- `timeAgo(iso)` (lines 28-34) with `Date.now()` made explicit; both
moments are milliseconds, and `/` on `Int` is floor division for these
positive divisors, matching `Math.floor`. -/
def timeAgo (now iso : Int) : String :=
  if (now - iso) / 1000 < 60 then "Just now"
  else if (now - iso) / 1000 < 3600 then
    ((now - iso) / 1000 / 60).repr ++ " min ago"
  else if (now - iso) / 1000 < 86400 then
    ((now - iso) / 1000 / 3600).repr ++ " hr ago"
  else ((now - iso) / 1000 / 86400).repr ++ " days ago"

/-- The `typeColors` table with its `|| typeColors.discussion` fallback
(lines 211-216), as `(border, badge, color)`. -/
def typeColors (ty : String) : String × String × String :=
  if ty = "debate" then ("var(--red)", "rgba(164,22,35,0.08)", "var(--red)")
  else if ty = "discussion" then
    ("var(--blue)", "rgba(113,169,247,0.1)", "var(--blue)")
  else if ty = "question" then
    ("var(--green)", "rgba(53,143,101,0.08)", "var(--green)")
  else ("var(--blue)", "rgba(113,169,247,0.1)", "var(--blue)")

/-- The per-tag span of lines 217-219; the tag is interpolated as is. -/
def tagSpan (tag : String) : String :=
  "<span style=\"font-family:'Cinzel',serif;font-size:10px;letter-spacing:0.08em;padding:3px 8px;border-radius:2px;background:rgba(46,80,119,0.08);color:var(--navy);\">"
    ++ tag ++ "</span>"

/-- `.join('')`: plain concatenation. -/
def joinAll : List String → String
  | [] => ""
  | s :: rest => s ++ joinAll rest

/-- `post.tags.slice(0, 3).map(...).join('')` (lines 217-219). -/
def tagHtml (tags : List String) : String :=
  joinAll ((tags.take 3).map tagSpan)

/-- `renderPostCard(post)` (lines 210-249) with `Date.now()` explicit. -/
def renderPostCard (post : Post) (now : Int) : String :=
  let t := typeColors post.type
  "\n      <a class=\"post-card\" href=\"debate.html\" onclick=\"AgoraStore.setCurrentPost('"
  ++ Nat.repr post.id
  ++ "')\" style=\"\n        display:block; text-decoration:none; color:inherit;\n        background:white;\n        border:1px solid rgba(46,80,119,0.12);\n        border-left:4px solid "
  ++ t.1
  ++ ";\n        border-radius:3px;\n        padding:28px;\n        transition:all 0.25s;\n        cursor:pointer;\n      \" onmouseover=\"this.style.transform='translateY(-3px)';this.style.boxShadow='0 8px 30px rgba(46,80,119,0.1)'\"\n         onmouseout=\"this.style.transform='';this.style.boxShadow=''\">\n        <div style=\"display:flex;align-items:center;gap:8px;margin-bottom:10px;flex-wrap:wrap;\">\n          <span style=\"font-family:'Cinzel',serif;font-size:9px;letter-spacing:0.2em;text-transform:uppercase;padding:3px 10px;border-radius:20px;background:"
  ++ t.2.1 ++ ";color:" ++ t.2.2 ++ ";\">" ++ post.type
  ++ "</span>\n          " ++ tagHtml post.tags
  ++ "\n        </div>\n        <div style=\"font-family:'Cinzel',serif;font-size:17px;font-weight:600;color:var(--navy);line-height:1.3;margin-bottom:10px;\">"
  ++ escHtml post.title
  ++ "</div>\n        <div style=\"font-size:14px;color:#777;line-height:1.6;margin-bottom:18px;\">"
  ++ escHtml (jsSlice post.body 140)
  ++ (if post.body.length > 140 then "…" else "")
  ++ "</div>\n        <div style=\"display:flex;align-items:center;justify-content:space-between;border-top:1px solid rgba(0,0,0,0.06);padding-top:14px;font-size:13px;flex-wrap:wrap;gap:8px;\">\n          <div style=\"display:flex;gap:8px;\">\n            "
  ++ (if post.type = "debate" then
        "\n              <span style=\"font-family:'Cinzel',serif;font-size:10px;padding:3px 10px;border-radius:20px;background:rgba(53,143,101,0.1);color:var(--green);\">"
        ++ Nat.repr post.forCount
        ++ " For</span>\n              <span style=\"font-family:'Cinzel',serif;font-size:10px;padding:3px 10px;border-radius:20px;background:rgba(164,22,35,0.08);color:var(--red);\">"
        ++ Nat.repr post.againstCount ++ " Against</span>\n            "
      else
        "<span style=\"color:#aaa;\">" ++ Nat.repr post.argCount ++ " "
        ++ (if post.argCount = 1 then "reply" else "replies") ++ "</span>")
  ++ "\n          </div>\n          <span style=\"color:#bbb;font-family:'Cinzel',serif;font-size:11px;letter-spacing:0.05em;\">"
  ++ timeAgo now post.createdAt
  ++ "</span>\n        </div>\n      </a>"

/-- JS `author.split(' ')` over characters. -/
def splitSpace : List Char → List (List Char)
  | [] => [[]]
  | c :: cs =>
    let r := splitSpace cs
    if c = ' ' then [] :: r
    else
      match r with
      | w :: ws => (c :: w) :: ws
      | [] => [[c]]

/-- Line 258: `arg.author.split(' ').map(w => w[0]).join('').slice(0,2)
.toUpperCase()`; `w[0]` of an empty word is `undefined`, which `join('')`
renders as the empty string, hence `take 1`. -/
def initials (author : String) : String :=
  ((((splitSpace author.data).map (fun w => w.take 1)).flatten.take 2).map
      Char.toUpper).asString

/-- The `steelHtml` badge of lines 261-263. -/
def steelHtml (arg : Argument) : String :=
  if arg.steelmanned then
    "<span class=\"steelman-badge\">★ Steelmanned ×" ++ arg.steelmanCount.repr
      ++ "</span>"
  else ""

/-- `renderArgCard(arg, postId)` (lines 251-291): the store supplies the vote
record via `getVotes(arg.id)`; `postId` is accepted and, as in the source,
never used. -/
def renderArgCard (s : Store) (arg : Argument) (_postId : Nat) (now : Int) :
    String :=
  let v := getVotes s arg.id
  let isFor := arg.side = "for"
  let borderColor := if isFor then "var(--green)" else "var(--red)"
  let borderBg := if isFor then "rgba(53,143,101,0.15)" else "rgba(164,22,35,0.12)"
  let badgeClass := if isFor then "badge-for" else "badge-against"
  let sideLabel := if isFor then "For" else "Against"
  let avatarBg := if isFor then "var(--green)" else "var(--red)"
  "\n      <div class=\"arg-card " ++ arg.side ++ "\" id=\"arg-"
  ++ Nat.repr arg.id ++ "\" style=\"border-left-color:" ++ borderColor
  ++ ";border-color:" ++ borderBg
  ++ ";\">\n        <div class=\"arg-header\">\n          <div class=\"arg-author\">\n            <div class=\"avatar\" style=\"background:"
  ++ avatarBg ++ ";\">" ++ initials arg.author
  ++ "</div>\n            <div class=\"arg-meta\">\n              <span class=\"arg-name\">"
  ++ escHtml arg.author
  ++ "</span>\n              <span class=\"arg-time\">" ++ timeAgo now arg.createdAt
  ++ "</span>\n            </div>\n          </div>\n          <span class=\"arg-side-badge "
  ++ badgeClass ++ "\">" ++ sideLabel
  ++ "</span>\n        </div>\n        <p class=\"arg-body\">"
  ++ nl2br (escHtml arg.body)
  ++ "</p>\n        <div class=\"arg-footer\">\n          <button class=\"arg-action steelman "
  ++ (if arg.steelmanned then "active" else "")
  ++ "\"\n            onclick=\"handleSteelman('" ++ Nat.repr arg.id
  ++ "', this)\">⭐ " ++ (if arg.steelmanned then "Steelmanned" else "Steelman")
  ++ "</button>\n          " ++ steelHtml arg
  ++ "\n          <div class=\"arg-votes\">\n            <button class=\"vote-btn up "
  ++ (if v.userVote = some Dir.up then "active-up" else "")
  ++ "\"\n              onclick=\"handleVote('" ++ Nat.repr arg.id
  ++ "', 'up', this)\">▲</button>\n            <span class=\"vote-count\" id=\"votes-"
  ++ Nat.repr arg.id ++ "\">" ++ (v.up - v.down).repr
  ++ "</span>\n            <button class=\"vote-btn down "
  ++ (if v.userVote = some Dir.down then "active-down" else "")
  ++ "\"\n              onclick=\"handleVote('" ++ Nat.repr arg.id
  ++ "', 'down', this)\">▼</button>\n          </div>\n        </div>\n      </div>"

/-- The number of occurrences of one character in a string. -/
def countChar (c : Char) (s : String) : Nat := s.data.count c

/-- Whether `pat` stands at the front of `s`. -/
def leadsWith : List Char → List Char → Bool
  | [], _ => true
  | _ :: _, [] => false
  | c :: cs, d :: ds => c = d && leadsWith cs ds

/-- Whether `pat` occurs contiguously anywhere in `s`. -/
def hasSub (pat : List Char) : List Char → Bool
  | [] => leadsWith pat []
  | s@(_ :: rest) => leadsWith pat s || hasSub pat rest

/-- Whether `pat` occurs verbatim inside `s`. -/
def containsSub (pat s : String) : Bool := hasSub pat.data s.data

/-! ### Counting occurrences of `'<'`, the character that opens markup

`escHtml` output never holds a `'<'`, so a free-text field that reaches the
fragment only through `escHtml` cannot move the fragment's `'<'` count,
while text interpolated raw shifts it by exactly its own count.  The C1
theorems below are phrased through these counts. -/

theorem countChar_append (c : Char) (s t : String) :
    countChar c (s ++ t) = countChar c s + countChar c t := by
  simp [countChar, String.data_append, List.count_append]

theorem countChar_empty (c : Char) : countChar c "" = 0 := rfl

theorem countChar_singleton_ne {c d : Char} (h : d ≠ c) :
    countChar c (String.singleton d) = 0 := by
  simp [countChar, String.singleton, List.count_cons, h]

theorem countChar_singleton (c d : Char) :
    countChar c (String.singleton d) = if d = c then 1 else 0 := by
  by_cases h : d = c
  · subst h; simp [countChar, String.singleton, List.count_cons]
  · simp [countChar_singleton_ne h, h]

theorem countChar_lt_escChar (c : Char) : countChar '<' (escChar c) = 0 := by
  unfold escChar
  split_ifs with h1 h2 h3 h4
  · decide
  · decide
  · decide
  · decide
  · exact countChar_singleton_ne h2

theorem countChar_lt_escList (l : List Char) :
    countChar '<' (escList l) = 0 := by
  induction l with
  | nil => rfl
  | cons c cs ih => simp [escList, countChar_append, countChar_lt_escChar, ih]

theorem countChar_lt_escHtml (s : String) : countChar '<' (escHtml s) = 0 :=
  countChar_lt_escList s.data

theorem countChar_nl_escChar (c : Char) :
    countChar '\n' (escChar c) = countChar '\n' (String.singleton c) := by
  unfold escChar
  split_ifs <;> subst_vars <;> rfl

theorem countChar_nl_escList (l : List Char) :
    countChar '\n' (escList l) = l.count '\n' := by
  induction l with
  | nil => rfl
  | cons c cs ih =>
    simp only [escList, countChar_append, countChar_nl_escChar,
      countChar_singleton, ih, List.count_cons, beq_iff_eq]
    omega

theorem countChar_nl_escHtml (s : String) :
    countChar '\n' (escHtml s) = countChar '\n' s :=
  countChar_nl_escList s.data

theorem countChar_lt_nl2brList (l : List Char) :
    countChar '<' (nl2brList l) = l.count '<' + l.count '\n' := by
  induction l with
  | nil => rfl
  | cons c cs ih =>
    simp only [nl2brList, countChar_append, ih, List.count_cons, beq_iff_eq]
    by_cases hc : c = '\n'
    · subst hc
      have h4 : countChar '<' (if ('\n' : Char) = '\n' then "<br>" else String.singleton '\n') = 1 := by decide
      rw [h4]
      simp
      omega
    · rw [if_neg hc, countChar_singleton]
      by_cases hlt : c = '<' <;> (simp [hlt, hc]; try omega)

theorem countChar_lt_nl2br (s : String) :
    countChar '<' (nl2br s) = countChar '<' s + countChar '\n' s :=
  countChar_lt_nl2brList s.data

theorem digitChar_ne_lt (n : Nat) : Nat.digitChar n ≠ '<' := by
  by_cases h : n < 16
  · interval_cases n <;> decide
  · have h0 : n ≠ 0 := by omega
    have h1 : n ≠ 1 := by omega
    have h2 : n ≠ 2 := by omega
    have h3 : n ≠ 3 := by omega
    have h4 : n ≠ 4 := by omega
    have h5 : n ≠ 5 := by omega
    have h6 : n ≠ 6 := by omega
    have h7 : n ≠ 7 := by omega
    have h8 : n ≠ 8 := by omega
    have h9 : n ≠ 9 := by omega
    have h10 : n ≠ 10 := by omega
    have h11 : n ≠ 11 := by omega
    have h12 : n ≠ 12 := by omega
    have h13 : n ≠ 13 := by omega
    have h14 : n ≠ 14 := by omega
    have h15 : n ≠ 15 := by omega
    unfold Nat.digitChar
    rw [if_neg h0, if_neg h1, if_neg h2, if_neg h3, if_neg h4, if_neg h5,
      if_neg h6, if_neg h7, if_neg h8, if_neg h9, if_neg h10, if_neg h11,
      if_neg h12, if_neg h13, if_neg h14, if_neg h15]
    decide

theorem toDigitsCore_no_lt (b : Nat) :
    ∀ (fuel n : Nat) (ds : List Char), (∀ c ∈ ds, c ≠ '<') →
      ∀ c ∈ Nat.toDigitsCore b fuel n ds, c ≠ '<' := by
  intro fuel
  induction fuel with
  | zero => intro n ds h c hc; exact h c hc
  | succ fuel ih =>
    intro n ds h c hc
    have hcons : ∀ d ∈ Nat.digitChar (n % b) :: ds, d ≠ '<' := by
      intro d hd
      rcases List.mem_cons.mp hd with h1 | h2
      · exact h1 ▸ digitChar_ne_lt _
      · exact h _ h2
    by_cases hnb : n / b = 0
    · have he : Nat.toDigitsCore b (fuel + 1) n ds =
          Nat.digitChar (n % b) :: ds := by
        rw [Nat.toDigitsCore, if_pos hnb]
      exact hcons c (he ▸ hc)
    · have he : Nat.toDigitsCore b (fuel + 1) n ds =
          Nat.toDigitsCore b fuel (n / b) (Nat.digitChar (n % b) :: ds) := by
        rw [Nat.toDigitsCore, if_neg hnb]
      exact ih (n / b) _ hcons c (he ▸ hc)

theorem countChar_lt_natRepr (n : Nat) : countChar '<' (Nat.repr n) = 0 := by
  have h := toDigitsCore_no_lt 10 (n + 1) n [] (by simp)
  exact List.count_eq_zero.mpr (fun hmem => h '<' hmem rfl)

theorem countChar_lt_intRepr (i : Int) : countChar '<' (Int.repr i) = 0 := by
  cases i with
  | ofNat m => exact countChar_lt_natRepr m
  | negSucc m =>
    show countChar '<' ("-" ++ Nat.repr (m + 1)) = 0
    rw [countChar_append, countChar_lt_natRepr]
    decide

theorem countChar_lt_timeAgo (now iso : Int) :
    countChar '<' (timeAgo now iso) = 0 := by
  unfold timeAgo
  split_ifs <;>
    first
      | decide
      | (rw [countChar_append, countChar_lt_intRepr]; decide)

theorem countChar_lt_typeColors_border (ty : String) :
    countChar '<' (typeColors ty).1 = 0 := by
  unfold typeColors; split_ifs <;> decide

theorem countChar_lt_typeColors_badge (ty : String) :
    countChar '<' (typeColors ty).2.1 = 0 := by
  unfold typeColors; split_ifs <;> decide

theorem countChar_lt_typeColors_color (ty : String) :
    countChar '<' (typeColors ty).2.2 = 0 := by
  unfold typeColors; split_ifs <;> decide

theorem countChar_lt_tagSpan (tg : String) :
    countChar '<' (tagSpan tg) = 2 + countChar '<' tg := by
  unfold tagSpan
  rw [countChar_append, countChar_append]
  have h1 : countChar '<' "<span style=\"font-family:'Cinzel',serif;font-size:10px;letter-spacing:0.08em;padding:3px 8px;border-radius:2px;background:rgba(46,80,119,0.08);color:var(--navy);\">" = 1 := by
    decide
  have h2 : countChar '<' "</span>" = 1 := by decide
  rw [h1, h2]
  omega

theorem countChar_lt_tagList (l : List String) :
    countChar '<' (joinAll (l.map tagSpan)) =
      (l.map (fun tg => 2 + countChar '<' tg)).sum := by
  induction l with
  | nil => rfl
  | cons t rest ih =>
    simp [joinAll, countChar_append, countChar_lt_tagSpan, ih]

theorem countChar_lt_tagHtml (tags : List String) :
    countChar '<' (tagHtml tags) =
      ((tags.take 3).map (fun tg => 2 + countChar '<' tg)).sum := by
  unfold tagHtml
  exact countChar_lt_tagList _

theorem countChar_lt_dots (cond : Prop) [Decidable cond] :
    countChar '<' (if cond then "…" else "") = 0 := by
  split <;> decide

theorem countChar_ite (c : Char) (cond : Prop) [Decidable cond]
    (a b : String) :
    countChar c (if cond then a else b) =
      if cond then countChar c a else countChar c b :=
  apply_ite (countChar c) cond a b

theorem countChar_lt_initials_empty : countChar '<' (initials "") = 0 := by
  decide

/-! ### Claim C1 -/

/-- A post whose sole tag is an HTML payload, the other free-text fields
harmless. -/
def cexPost : Post :=
  { id := 0, type := "discussion", title := "Rents", body := "Body",
    tags := ["<script>alert(1)"], position := none, confidence := none,
    whatWouldChangeMyMind := none, author := "You", createdAt := 0,
    argCount := 0, forCount := 0, againstCount := 0, mindChanges := 0 }

/-- C1 is false as stated: `renderPostCard` does not escape tag strings.  For
`cexPost`, whose tag is `"<script>alert(1)"`, that raw text occurs verbatim
in the returned fragment even though escaping it would have changed it. -/
theorem C1_raw_tag_counterexample :
    containsSub "<script>alert(1)" (renderPostCard cexPost 0) = true ∧
    escHtml "<script>alert(1)" ≠ "<script>alert(1)" := by
  constructor
  · decide
  · decide

/-- C1 (amended): the free-text `title` and `body` of a post and the `body`
and displayed `author` name of an argument reach the fragment only through
`escHtml`, but tag strings are interpolated raw, and the avatar initials
derived from an argument's author are also raw.  Formally, in terms of the
count of `'<'` (the character that opens markup, which `escHtml` output
never contains): (1) the count in `renderPostCard` is unchanged under any
replacement of `title`, `body` and the timestamp; (2) the tags shift it by
exactly the raw `'<'` count of each of the first three tags plus the two
`'<'` of each wrapping span; (3) the count in `renderArgCard` exceeds the
blank-body, blank-author baseline by exactly one per body newline (the
`<br>` rewriting) plus the raw `'<'` count of the author's initials. -/
theorem C1_escaping_amended :
    (∀ (p : Post) (now now' : Int) (t' b' : String),
        countChar '<' (renderPostCard { p with title := t', body := b' } now') =
          countChar '<' (renderPostCard p now)) ∧
    (∀ (p : Post) (now : Int) (ts : List String),
        countChar '<' (renderPostCard { p with tags := ts } now) =
          countChar '<' (renderPostCard { p with tags := [] } now) +
            ((ts.take 3).map (fun tg => 2 + countChar '<' tg)).sum) ∧
    (∀ (s : Store) (a : Argument) (pid : Nat) (now now' : Int)
        (b' a' : String),
        countChar '<' (renderArgCard s { a with body := b', author := a' } pid now') =
          countChar '<' (renderArgCard s { a with body := "", author := "" } pid now)
            + countChar '\n' b' + countChar '<' (initials a')) := by
  refine ⟨?_, ?_, ?_⟩
  · intro p now now' t' b'
    simp [renderPostCard, countChar_append, countChar_lt_escHtml,
      countChar_lt_natRepr, countChar_lt_timeAgo,
      countChar_lt_typeColors_border, countChar_lt_typeColors_badge,
      countChar_lt_typeColors_color, countChar_lt_dots, countChar_lt_tagHtml,
      countChar_ite, countChar_empty, show countChar '<' "…" = 0 from by decide]
  · intro p now ts
    simp [renderPostCard, countChar_append, countChar_lt_escHtml,
      countChar_lt_natRepr, countChar_lt_timeAgo,
      countChar_lt_typeColors_border, countChar_lt_typeColors_badge,
      countChar_lt_typeColors_color, countChar_lt_dots, countChar_lt_tagHtml,
      countChar_ite, countChar_empty, show countChar '<' "…" = 0 from by decide]
    omega
  · intro s a pid now now' b' a'
    simp [renderArgCard, steelHtml, countChar_append, countChar_lt_escHtml,
      countChar_lt_natRepr, countChar_lt_intRepr, countChar_lt_timeAgo,
      countChar_lt_nl2br, countChar_nl_escHtml, countChar_empty,
      countChar_lt_initials_empty, countChar_ite]
    omega

/-! ### Claims C2, C10, C8: the vote record -/

/-- Writing a key and reading it back yields the written value. -/
theorem lookupA_setA_self {α : Type} (l : List (Nat × α)) (k : Nat) (v : α) :
    lookupA (setA l k v) k = some v := by
  induction l with
  | nil => simp [setA, lookupA]
  | cons kv rest ih =>
    rcases kv with ⟨k0, v0⟩
    by_cases h : k0 = k
    · simp [setA, h, lookupA]
    · simp [setA, h, lookupA, ih]

/-- Decrement one direction's counter, leaving `userVote` alone. -/
def decDir (v : VoteRec) : Dir → VoteRec
  | .up => { v with up := v.up - 1 }
  | .down => { v with down := v.down - 1 }

/-- Increment one direction's counter, leaving `userVote` alone. -/
def incDir (v : VoteRec) : Dir → VoteRec
  | .up => { v with up := v.up + 1 }
  | .down => { v with down := v.down + 1 }

/-- Modelled from the words of claim C2 / spec §4.1 `vote`: toggle-or-switch.
If `userVote` already equals `dir`, decrement that direction's counter and
clear the vote; otherwise decrement the previously voted direction's counter
(if any), increment `dir`'s counter and record `dir`. -/
def voteStepSpec (v : VoteRec) (dir : Dir) : VoteRec :=
  if v.userVote = some dir then { decDir v dir with userVote := none }
  else
    let v1 := match v.userVote with
      | some prev => decDir v prev
      | none => v
    { incDir v1 dir with userVote := some dir }

/-- C2 (confirmed): `vote(argId, dir)` implements toggle-or-switch exactly as
the claim words it — the code's per-record mutation coincides with the
spec-worded `voteStepSpec` on every record and direction, the store-level
call applies it to the current record (fresh records starting at zero/none),
persists the result under `argId` and returns it; and on a fresh record
"up then up" returns to zero/zero/none while "up then down" yields
`up = 0`, `down = 1`, vote down. -/
theorem C2_vote_toggle_or_switch :
    (∀ (v : VoteRec) (dir : Dir), voteStep v dir = voteStepSpec v dir) ∧
    (∀ (s : Store) (argId : Nat) (dir : Dir),
        (vote s argId dir).1 = voteStepSpec (getVotes s argId) dir ∧
        getVotes (vote s argId dir).2 argId = (vote s argId dir).1) ∧
    voteStep (voteStep initVote .up) .up = initVote ∧
    voteStep (voteStep initVote .up) .down =
      { up := 0, down := 1, userVote := some .down } := by
  have heq : ∀ (v : VoteRec) (dir : Dir), voteStep v dir = voteStepSpec v dir := by
    intro v dir
    rcases v with ⟨u, d, uv⟩
    rcases uv with _ | dv
    · cases dir <;> rfl
    · cases dv <;> cases dir <;> rfl
  refine ⟨heq, ?_, by decide, by decide⟩
  intro s argId dir
  constructor
  · rw [← heq]; rfl
  · simp [vote, getVotes, lookupA_setA_self]

/-- C10 (confirmed): voting on an identifier with no vote record does not
fail; a fresh zero/none record is created, stepped, persisted and returned,
so the call yields counter 1 in the chosen direction, 0 in the other, and
`userVote = dir` — whether or not any argument has that identifier. -/
theorem C10_vote_unknown_arg (s : Store) (argId : Nat) (dir : Dir)
    (h : lookupA s.votes argId = none) :
    (vote s argId dir).1 =
      { up := if dir = .up then 1 else 0,
        down := if dir = .down then 1 else 0,
        userVote := some dir } ∧
    getVotes (vote s argId dir).2 argId = (vote s argId dir).1 := by
  constructor
  · show voteStep ((lookupA s.votes argId).getD initVote) dir = _
    rw [h]
    cases dir <;> rfl
  · simp [vote, getVotes, lookupA_setA_self]

/-- Witness for C10: in the empty store no record exists for id 7, and voting
up there returns `{up := 1, down := 0, userVote := up}`. -/
theorem C10_vote_unknown_arg_witness :
    lookupA initialStore.votes 7 = none ∧
    (vote initialStore 7 .up).1 = { up := 1, down := 0, userVote := some .up } := by
  refine ⟨rfl, ?_⟩
  exact (C10_vote_unknown_arg initialStore 7 .up rfl).1.trans (by decide)

/-- The one-user invariant of a vote record: each counter is 1 exactly on the
recorded vote's direction and 0 otherwise. -/
def VoteInv (v : VoteRec) : Prop :=
  v.up = (if v.userVote = some Dir.up then 1 else 0) ∧
  v.down = (if v.userVote = some Dir.down then 1 else 0)

instance (v : VoteRec) : Decidable (VoteInv v) :=
  inferInstanceAs (Decidable (_ ∧ _))

theorem voteStep_inv (v : VoteRec) (dir : Dir) (h : VoteInv v) :
    VoteInv (voteStep v dir) := by
  rcases v with ⟨u, d, uv⟩
  obtain ⟨h1, h2⟩ := h
  rcases uv with _ | dv
  · simp at h1 h2
    subst h1; subst h2
    cases dir <;> decide
  · cases dv <;> simp at h1 h2 <;> subst h1 <;> subst h2 <;>
      cases dir <;> decide

/-- The record a sequence of `vote` calls leaves, starting from the record
`createArgument` installs. -/
def voteFold (dirs : List Dir) : VoteRec := dirs.foldl voteStep initVote

theorem voteFold_inv (dirs : List Dir) : VoteInv (voteFold dirs) := by
  have general : ∀ (ds : List Dir) (v : VoteRec), VoteInv v →
      VoteInv (ds.foldl voteStep v) := by
    intro ds
    induction ds with
    | nil => intro v h; exact h
    | cons d rest ih => intro v h; exact ih _ (voteStep_inv v d h)
  exact general dirs initVote (by decide)

/-- C8 (confirmed): every vote record reachable from its initialization by
vote calls has `userVote` among none/up/down, both counters in `{0, 1}` with
sum at most 1, and counter 1 exactly on the recorded direction. -/
theorem C8_vote_record_invariant (dirs : List Dir) :
    ((voteFold dirs).userVote = none ∨
      (voteFold dirs).userVote = some Dir.up ∨
      (voteFold dirs).userVote = some Dir.down) ∧
    ((voteFold dirs).up = 0 ∨ (voteFold dirs).up = 1) ∧
    ((voteFold dirs).down = 0 ∨ (voteFold dirs).down = 1) ∧
    (voteFold dirs).up + (voteFold dirs).down ≤ 1 ∧
    ((voteFold dirs).up = 1 ↔ (voteFold dirs).userVote = some Dir.up) ∧
    ((voteFold dirs).down = 1 ↔ (voteFold dirs).userVote = some Dir.down) := by
  obtain ⟨h1, h2⟩ := voteFold_inv dirs
  rcases hu : (voteFold dirs).userVote with _ | dv
  · rw [hu] at h1 h2
    simp at h1 h2
    refine ⟨Or.inl rfl, Or.inl h1, Or.inl h2, by omega, ?_, ?_⟩ <;>
      simp [h1, h2]
  · cases dv
    · rw [hu] at h1 h2
      simp at h1 h2
      refine ⟨Or.inr (Or.inl rfl), Or.inr h1, Or.inl h2, by omega, ?_, ?_⟩ <;>
        simp [h1, h2]
    · rw [hu] at h1 h2
      simp at h1 h2
      refine ⟨Or.inr (Or.inr rfl), Or.inl h1, Or.inr h2, by omega, ?_, ?_⟩ <;>
        simp [h1, h2]

/-! ### Claim C5: toggleSteelman -/

theorem toggleArg_toggleArg (a : Argument) : toggleArg (toggleArg a) = a := by
  rcases a with ⟨i, pid, sd, bd, au, t, st, cnt⟩
  cases st <;> simp [toggleArg]

theorem toggleArg_id (a : Argument) : (toggleArg a).id = a.id := rfl

theorem toggleArg_steelmanned (a : Argument) :
    (toggleArg a).steelmanned = !a.steelmanned := rfl

/-- Toggling the same id again in one list undoes the first toggle and
returns the opposite flag. -/
theorem toggleInList_twice (argId : Nat) :
    ∀ (l l' : List Argument) (b : Bool),
      toggleInList argId l = some (l', b) →
      toggleInList argId l' = some (l, !b) := by
  intro l
  induction l with
  | nil => intro l' b h; simp [toggleInList] at h
  | cons a rest ih =>
    intro l' b h
    by_cases ha : a.id = argId
    · rw [toggleInList, if_pos ha] at h
      simp only [Option.some.injEq, Prod.mk.injEq] at h
      obtain ⟨h1, h2⟩ := h
      subst h1; subst h2
      rw [toggleInList, if_pos (by rw [toggleArg_id]; exact ha)]
      rw [toggleArg_toggleArg, toggleArg_steelmanned, Bool.not_not]
    · rw [toggleInList, if_neg ha] at h
      rcases hrec : toggleInList argId rest with _ | p
      · rw [hrec] at h; simp at h
      · rcases p with ⟨rest', b0⟩
        rw [hrec] at h
        simp only [Option.some.injEq, Prod.mk.injEq] at h
        obtain ⟨h1, h2⟩ := h
        subst h1; subst h2
        rw [toggleInList, if_neg ha, ih rest' b0 hrec]

/-- Same statement one level up, over the whole `args` map. -/
theorem toggleScan_twice (argId : Nat) :
    ∀ (es es' : List (Nat × List Argument)) (b : Bool),
      toggleScan argId es = some (es', b) →
      toggleScan argId es' = some (es, !b) := by
  intro es
  induction es with
  | nil => intro es' b h; simp [toggleScan] at h
  | cons kv rest ih =>
    rcases kv with ⟨pid, l⟩
    intro es' b h
    rw [toggleScan] at h
    rcases hil : toggleInList argId l with _ | p
    · rw [hil] at h
      rcases hrec : toggleScan argId rest with _ | q
      · rw [hrec] at h; simp at h
      · rcases q with ⟨rest', b0⟩
        rw [hrec] at h
        simp only [Option.some.injEq, Prod.mk.injEq] at h
        obtain ⟨h1, h2⟩ := h
        subst h1; subst h2
        rw [toggleScan, hil, ih rest' b0 hrec]
    · rcases p with ⟨l', b0⟩
      rw [hil] at h
      simp only [Option.some.injEq, Prod.mk.injEq] at h
      obtain ⟨h1, h2⟩ := h
      subst h1; subst h2
      rw [toggleScan, toggleInList_twice argId l l' b0 hil]

theorem toggleInList_found (argId : Nat) :
    ∀ l : List Argument, (∃ a ∈ l, a.id = argId) →
      ∃ l' b, toggleInList argId l = some (l', b) := by
  intro l
  induction l with
  | nil => rintro ⟨a, ha, _⟩; exact absurd ha (List.not_mem_nil a)
  | cons a rest ih =>
    rintro ⟨a0, ha0, hid⟩
    by_cases ha : a.id = argId
    · exact ⟨_, _, by rw [toggleInList, if_pos ha]⟩
    · rcases List.mem_cons.mp ha0 with rfl | hmem
      · exact absurd hid ha
      · obtain ⟨l', b, hl⟩ := ih ⟨a0, hmem, hid⟩
        exact ⟨a :: l', b, by rw [toggleInList, if_neg ha, hl]⟩

theorem toggleScan_found (argId : Nat) :
    ∀ es : List (Nat × List Argument),
      (∃ kv ∈ es, ∃ a ∈ kv.2, a.id = argId) →
      ∃ es' b, toggleScan argId es = some (es', b) := by
  intro es
  induction es with
  | nil => rintro ⟨kv, hkv, _⟩; exact absurd hkv (List.not_mem_nil kv)
  | cons kv rest ih =>
    rcases kv with ⟨pid, l⟩
    rintro ⟨kv0, hkv0, ha⟩
    rcases hil : toggleInList argId l with _ | p
    · rcases List.mem_cons.mp hkv0 with rfl | hmem
      · obtain ⟨l', b, hl⟩ := toggleInList_found argId l ha
        rw [hl] at hil
        simp at hil
      · obtain ⟨rest', b, hr⟩ := ih ⟨kv0, hmem, ha⟩
        exact ⟨(pid, l) :: rest', b, by rw [toggleScan, hil, hr]⟩
    · rcases p with ⟨l', b⟩
      exact ⟨(pid, l') :: rest, b, by rw [toggleScan, hil]⟩

/-- C5 (confirmed): if any post's list holds an argument with this id,
toggling steelman twice returns the whole store — that argument's flag and
count included, every other argument and collection untouched — to its
original state. -/
theorem C5_toggleSteelman_twice (s : Store) (argId : Nat)
    (h : ∃ kv ∈ s.args, ∃ a ∈ kv.2, a.id = argId) :
    (toggleSteelman (toggleSteelman s argId).2 argId).2 = s := by
  obtain ⟨es', b, hscan⟩ := toggleScan_found argId s.args h
  have h2 := toggleScan_twice argId s.args es' b hscan
  simp [toggleSteelman, hscan, h2]

/-- A store holding one argument (id 6) under post key 5. -/
def steelStore : Store :=
  (createArgument initialStore 5
    { side := "for", body := "b", author := none,
      whatWouldChangeMyMind := none } 0).2

/-- Witness for C5 at a concrete store and argument. -/
theorem C5_toggleSteelman_twice_witness :
    (toggleSteelman (toggleSteelman steelStore 6).2 6).2 = steelStore :=
  C5_toggleSteelman_twice steelStore 6 (by decide)

/-! ### Claim C7: lookup misses -/

theorem lookupA_eq_none {α : Type} :
    ∀ (l : List (Nat × α)) (k : Nat), (∀ kv ∈ l, kv.1 ≠ k) →
      lookupA l k = none := by
  intro l k
  induction l with
  | nil => intro _; rfl
  | cons kv rest ih =>
    intro h
    rcases kv with ⟨k0, v0⟩
    rw [lookupA, if_neg (h (k0, v0) (List.mem_cons_self _ _))]
    exact ih fun kv hkv => h kv (List.mem_cons_of_mem _ hkv)

theorem toggleInList_nomatch (argId : Nat) :
    ∀ l : List Argument, (∀ a ∈ l, a.id ≠ argId) →
      toggleInList argId l = none := by
  intro l
  induction l with
  | nil => intro _; rfl
  | cons a rest ih =>
    intro h
    rw [toggleInList, if_neg (h a (List.mem_cons_self _ _)),
      ih fun a0 h0 => h a0 (List.mem_cons_of_mem _ h0)]

theorem toggleScan_nomatch (argId : Nat) :
    ∀ es : List (Nat × List Argument),
      (∀ kv ∈ es, ∀ a ∈ kv.2, a.id ≠ argId) →
      toggleScan argId es = none := by
  intro es
  induction es with
  | nil => intro _; rfl
  | cons kv rest ih =>
    intro h
    rcases kv with ⟨pid, l⟩
    rw [toggleScan, toggleInList_nomatch argId l (h (pid, l) (List.mem_cons_self _ _)),
      ih fun kv0 h0 => h kv0 (List.mem_cons_of_mem _ h0)]

/-- C7 (confirmed): when the identifier is nowhere in the store — no post has
it, no argument-list key or vote key carries it, no argument bears it —
`getPost` is `none`, `getArguments` is `[]`, `getVotes` is the zero/none
record, `getCurrentPost` resolves a pointer to it as `none`, and
`toggleSteelman` returns `false` leaving the store as it was; none of them
raises. -/
theorem C7_lookup_miss_sentinels (s : Store) (id : Nat)
    (hpost : ∀ p ∈ s.posts, p.id ≠ id)
    (hargk : ∀ kv ∈ s.args, kv.1 ≠ id)
    (hvotek : ∀ kv ∈ s.votes, kv.1 ≠ id)
    (hargid : ∀ kv ∈ s.args, ∀ a ∈ kv.2, a.id ≠ id) :
    getPost s id = none ∧
    getArguments s id = [] ∧
    getVotes s id = initVote ∧
    (s.currentPost = some id → getCurrentPost s = none) ∧
    (toggleSteelman s id).1 = false ∧ (toggleSteelman s id).2 = s := by
  have hgp : getPost s id = none :=
    List.find?_eq_none.mpr fun p hp => by simpa using hpost p hp
  refine ⟨hgp, ?_, ?_, ?_, ?_, ?_⟩
  · simp [getArguments, lookupA_eq_none _ _ hargk]
  · simp [getVotes, lookupA_eq_none _ _ hvotek]
  · intro hc; simp [getCurrentPost, hc, hgp]
  · simp [toggleSteelman, toggleScan_nomatch id s.args hargid]
  · simp [toggleSteelman, toggleScan_nomatch id s.args hargid]

/-- A store whose current-post pointer dangles: id 42 names nothing. -/
def ghostStore : Store :=
  { posts := [], args := [], allTags := [], votes := [],
    currentPost := some 42, nextUid := 0 }

/-- Witness for C7 at a concrete store and missing identifier. -/
theorem C7_lookup_miss_sentinels_witness :
    getPost ghostStore 42 = none ∧ getArguments ghostStore 42 = [] ∧
    getVotes ghostStore 42 = initVote ∧ getCurrentPost ghostStore = none ∧
    (toggleSteelman ghostStore 42).1 = false := by
  have h := C7_lookup_miss_sentinels ghostStore 42 (by simp [ghostStore])
    (by simp [ghostStore]) (by simp [ghostStore]) (by simp [ghostStore])
  exact ⟨h.1, h.2.1, h.2.2.1, h.2.2.2.1 rfl, h.2.2.2.2.1⟩

/-! ### The store invariant behind claims C3 and C4 -/

theorem lookupA_setA_ne {α : Type} (k k' : Nat) (v : α) (h : k' ≠ k) :
    ∀ l : List (Nat × α), lookupA (setA l k v) k' = lookupA l k' := by
  intro l
  induction l with
  | nil =>
    show lookupA [(k, v)] k' = none
    rw [lookupA, if_neg (fun hh : k = k' => h hh.symm)]
    rfl
  | cons kv rest ih =>
    rcases kv with ⟨k0, v0⟩
    by_cases h0 : k0 = k
    · subst h0
      have hne : ¬(k0 = k') := fun hh => h hh.symm
      rw [setA, if_pos rfl, lookupA, if_neg hne, lookupA, if_neg hne]
    · rw [setA, if_neg h0, lookupA, lookupA, ih]

theorem mem_setA {α : Type} :
    ∀ (l : List (Nat × α)) (k : Nat) (v : α) (kv : Nat × α),
      kv ∈ setA l k v → kv ∈ l ∨ kv.1 = k := by
  intro l k v
  induction l with
  | nil =>
    intro kv h
    simp [setA] at h
    subst h
    right; rfl
  | cons kv0 rest ih =>
    intro kv h
    rcases kv0 with ⟨k0, v0⟩
    by_cases h0 : k0 = k
    · rw [setA, if_pos h0] at h
      rcases List.mem_cons.mp h with rfl | hm
      · right; exact h0
      · left; exact List.mem_cons_of_mem _ hm
    · rw [setA, if_neg h0] at h
      rcases List.mem_cons.mp h with rfl | hm
      · left; exact List.mem_cons_self _ _
      · rcases ih kv hm with hl | hr
        · left; exact List.mem_cons_of_mem _ hl
        · right; exact hr

theorem updateFirstPost_map_id (pid : Nat) (f : Post → Post)
    (hf : ∀ p, (f p).id = p.id) :
    ∀ l : List Post, (updateFirstPost l pid f).map Post.id = l.map Post.id := by
  intro l
  induction l with
  | nil => rfl
  | cons p rest ih =>
    by_cases hp : p.id = pid
    · simp [updateFirstPost, hp, hf]
    · simp [updateFirstPost, hp, ih]

theorem updateFirstPost_mem (pid : Nat) (f : Post → Post) :
    ∀ (l : List Post) (q : Post), q ∈ updateFirstPost l pid f →
      q ∈ l ∨ ∃ p ∈ l, p.id = pid ∧ q = f p := by
  intro l
  induction l with
  | nil => intro q h; simp [updateFirstPost] at h
  | cons p rest ih =>
    intro q h
    by_cases hp : p.id = pid
    · rw [updateFirstPost, if_pos hp] at h
      rcases List.mem_cons.mp h with rfl | hm
      · right; exact ⟨p, List.mem_cons_self _ _, hp, rfl⟩
      · left; exact List.mem_cons_of_mem _ hm
    · rw [updateFirstPost, if_neg hp] at h
      rcases List.mem_cons.mp h with rfl | hm
      · left; exact List.mem_cons_self _ _
      · rcases ih q hm with hl | ⟨p0, hp0, hid, hq⟩
        · left; exact List.mem_cons_of_mem _ hl
        · right; exact ⟨p0, List.mem_cons_of_mem _ hp0, hid, hq⟩

/-- With distinct post ids, an element of the updated list is either an
untouched post with a different id or the image of the unique match. -/
theorem updateFirstPost_mem_nodup (pid : Nat) (f : Post → Post) :
    ∀ l : List Post, (l.map Post.id).Nodup → ∀ q, q ∈ updateFirstPost l pid f →
      (q ∈ l ∧ q.id ≠ pid) ∨ ∃ p ∈ l, p.id = pid ∧ q = f p := by
  intro l
  induction l with
  | nil => intro _ q h; simp [updateFirstPost] at h
  | cons p rest ih =>
    intro hnd q h
    rw [List.map_cons, List.nodup_cons] at hnd
    obtain ⟨hnotin, hndrest⟩ := hnd
    by_cases hp : p.id = pid
    · rw [updateFirstPost, if_pos hp] at h
      rcases List.mem_cons.mp h with rfl | hm
      · right; exact ⟨p, List.mem_cons_self _ _, hp, rfl⟩
      · left
        refine ⟨List.mem_cons_of_mem _ hm, fun hq => ?_⟩
        refine hnotin ?_
        rw [hp, ← hq]
        exact List.mem_map_of_mem Post.id hm
    · rw [updateFirstPost, if_neg hp] at h
      rcases List.mem_cons.mp h with rfl | hm
      · left; exact ⟨List.mem_cons_self _ _, hp⟩
      · rcases ih hndrest q hm with ⟨hl, hne⟩ | ⟨p0, hp0, hid, hq⟩
        · left; exact ⟨List.mem_cons_of_mem _ hl, hne⟩
        · right; exact ⟨p0, List.mem_cons_of_mem _ hp0, hid, hq⟩

theorem registerTags_cons (acc : List String) (t : String) (ts : List String) :
    registerTags acc (t :: ts) =
      registerTags (if t ∈ acc then acc else acc ++ [t]) ts := rfl

theorem registerTags_sub : ∀ (ts acc : List String), acc ⊆ registerTags acc ts := by
  intro ts
  induction ts with
  | nil => intro acc x h; exact h
  | cons t rest ih =>
    intro acc x hx
    rw [registerTags_cons]
    refine ih _ ?_
    by_cases ht : t ∈ acc
    · rwa [if_pos ht]
    · rw [if_neg ht]; exact List.mem_append_left _ hx

theorem registerTags_nodup : ∀ (ts acc : List String), acc.Nodup →
    (registerTags acc ts).Nodup := by
  intro ts
  induction ts with
  | nil => intro acc h; exact h
  | cons t rest ih =>
    intro acc h
    rw [registerTags_cons]
    by_cases ht : t ∈ acc
    · rw [if_pos ht]; exact ih acc h
    · rw [if_neg ht]
      refine ih _ (List.Nodup.append h (List.nodup_singleton t) ?_)
      simpa [List.disjoint_singleton] using ht

/-- The vocabulary grows by the number of distinct supplied tags not already
known. -/
theorem registerTags_length : ∀ (ts acc : List String), acc.Nodup →
    (registerTags acc ts).length =
      acc.length + ((ts.filter (fun x => x ∉ acc)).toFinset).card := by
  intro ts
  induction ts with
  | nil => intro acc _; simp [registerTags]
  | cons t rest ih =>
    intro acc h
    rw [registerTags_cons]
    by_cases ht : t ∈ acc
    · rw [if_pos ht, ih acc h, List.filter_cons]
      simp [ht]
    · have hnodup : (acc ++ [t]).Nodup :=
        List.Nodup.append h (List.nodup_singleton t)
          (by simpa [List.disjoint_singleton] using ht)
      rw [if_neg ht, ih _ hnodup, List.length_append]
      have hcons : List.filter (fun x => decide (x ∉ acc)) (t :: rest) =
          t :: List.filter (fun x => decide (x ∉ acc)) rest := by
        simp [List.filter_cons, ht]
      rw [hcons, List.toFinset_cons]
      have hF : (rest.filter (fun x => decide (x ∉ acc ++ [t]))).toFinset =
          ((rest.filter (fun x => decide (x ∉ acc))).toFinset).erase t := by
        ext x
        simp only [List.mem_toFinset, List.mem_filter, Finset.mem_erase,
          List.mem_append, List.mem_singleton, decide_eq_true_eq]
        constructor
        · rintro ⟨hx, hn⟩
          push_neg at hn
          exact ⟨hn.2, hx, hn.1⟩
        · rintro ⟨hne, hx, hn⟩
          exact ⟨hx, by push_neg; exact ⟨hn, hne⟩⟩
      rw [hF]
      set F := (rest.filter (fun x => decide (x ∉ acc))).toFinset with hFdef
      have hlen : ([t] : List String).length = 1 := rfl
      rw [hlen]
      by_cases htF : t ∈ F
      · rw [Finset.card_erase_of_mem htF, Finset.insert_eq_self.mpr htF]
        have : 0 < F.card := Finset.card_pos.mpr ⟨t, htF⟩
        omega
      · rw [Finset.erase_eq_of_not_mem htF, Finset.card_insert_of_not_mem htF]
        omega

/-- Every post's derived counters agree with its argument list (the heart of
claim C3). -/
def PostCounts (s : Store) : Prop :=
  ∀ p ∈ s.posts,
    p.forCount = (getArguments s p.id).countP (fun a => a.side == "for") ∧
    p.againstCount = (getArguments s p.id).countP (fun a => a.side == "against") ∧
    p.argCount = (getArguments s p.id).length

/-- Every identifier in use is below the uid counter: generated ids are
fresh. -/
def IdBound (s : Store) : Prop :=
  (∀ p ∈ s.posts, p.id < s.nextUid) ∧ (∀ kv ∈ s.args, kv.1 < s.nextUid)

/-- The inductive invariant of the store. -/
def StoreInv (s : Store) : Prop :=
  PostCounts s ∧ IdBound s ∧ (s.posts.map Post.id).Nodup ∧ s.allTags.Nodup

theorem storeInv_initial : StoreInv initialStore := by
  refine ⟨?_, ⟨?_, ?_⟩, ?_, ?_⟩
  · intro p hp; simp [initialStore] at hp
  · intro p hp; simp [initialStore] at hp
  · intro kv hkv; simp [initialStore] at hkv
  · simp [initialStore]
  · show defaultTags.Nodup
    decide

theorem storeInv_createArgument (s : Store) (pid : Nat) (spec : ArgSpec)
    (t : Int) (h : StoreInv s) : StoreInv (createArgument s pid spec t).2 := by
  obtain ⟨hc, ⟨hbp, hba⟩, hnd, hnt⟩ := h
  have hmax : s.nextUid ≤ max s.nextUid (pid + 1) := Nat.le_max_left _ _
  have hpid : pid < max s.nextUid (pid + 1) :=
    Nat.lt_of_lt_of_le (Nat.lt_succ_self pid) (Nat.le_max_right _ _)
  refine ⟨?_, ⟨?_, ?_⟩, ?_, hnt⟩
  · intro q hq
    rcases updateFirstPost_mem_nodup pid _ s.posts hnd q hq with
      ⟨hl, hne⟩ | ⟨p, hp, hid, rfl⟩
    · obtain ⟨h1, h2, h3⟩ := hc q hl
      have hargs : getArguments (createArgument s pid spec t).2 q.id =
          getArguments s q.id := by
        show (lookupA (setA s.args pid _) q.id).getD [] = _
        rw [lookupA_setA_ne pid q.id _ hne]
        rfl
      rw [hargs]
      exact ⟨h1, h2, h3⟩
    · obtain ⟨h1, h2, h3⟩ := hc p hp
      have hargs : getArguments (createArgument s pid spec t).2 p.id =
          { id := max s.nextUid (pid + 1), postId := pid, side := spec.side,
            body := spec.body, author := jsOrStr spec.author "You",
            createdAt := t, steelmanned := false, steelmanCount := 0 } ::
            getArguments s pid := by
        show (lookupA (setA s.args pid _) p.id).getD [] = _
        rw [hid, lookupA_setA_self]
        rfl
      have hbid : (bumpCounts spec.side p).id = p.id := rfl
      refine ⟨?_, ?_, ?_⟩
      · show p.forCount + (if spec.side = "for" then 1 else 0) = _
        rw [hbid, hargs, List.countP_cons, h1, hid]
        by_cases hsd : spec.side = "for" <;> simp [hsd]
      · show p.againstCount + (if spec.side = "against" then 1 else 0) = _
        rw [hbid, hargs, List.countP_cons, h2, hid]
        by_cases hsd : spec.side = "against" <;> simp [hsd]
      · show p.argCount + 1 = _
        rw [hbid, hargs, List.length_cons, h3, hid]
  · intro q hq
    rcases updateFirstPost_mem pid _ s.posts q hq with hl | ⟨p, hp, _, rfl⟩
    · exact Nat.lt_succ_of_lt (Nat.lt_of_lt_of_le (hbp q hl) hmax)
    · exact Nat.lt_succ_of_lt (Nat.lt_of_lt_of_le (hbp p hp) hmax)
  · intro kv hkv
    rcases mem_setA s.args pid _ kv hkv with hl | hk
    · exact Nat.lt_succ_of_lt (Nat.lt_of_lt_of_le (hba kv hl) hmax)
    · rw [hk]; exact Nat.lt_succ_of_lt hpid
  · show ((updateFirstPost s.posts pid (bumpCounts spec.side)).map Post.id).Nodup
    rw [updateFirstPost_map_id pid (bumpCounts spec.side) (fun p => rfl)]
    exact hnd

theorem storeInv_prepend (s : Store) (spec : PostSpec) (t : Int)
    (h : StoreInv s) :
    StoreInv { s with posts := mkPost s spec t :: s.posts,
                      nextUid := s.nextUid + 1 } := by
  obtain ⟨hc, ⟨hbp, hba⟩, hnd, hnt⟩ := h
  refine ⟨?_, ⟨?_, ?_⟩, ?_, hnt⟩
  · intro q hq
    rcases List.mem_cons.mp hq with rfl | hm
    · have hargs : getArguments
          { s with posts := mkPost s spec t :: s.posts,
                   nextUid := s.nextUid + 1 } (mkPost s spec t).id = [] := by
        show (lookupA s.args s.nextUid).getD [] = []
        rw [lookupA_eq_none s.args s.nextUid
          (fun kv hkv => Nat.ne_of_lt (hba kv hkv))]
        rfl
      rw [hargs]
      exact ⟨rfl, rfl, rfl⟩
    · exact hc q hm
  · intro q hq
    rcases List.mem_cons.mp hq with rfl | hm
    · exact Nat.lt_succ_self _
    · exact Nat.lt_succ_of_lt (hbp q hm)
  · intro kv hkv
    exact Nat.lt_succ_of_lt (hba kv hkv)
  · rw [List.map_cons, List.nodup_cons]
    refine ⟨fun hmem => ?_, hnd⟩
    obtain ⟨p, hp, hpid⟩ := List.mem_map.mp hmem
    exact absurd hpid (Nat.ne_of_lt (hbp p hp))

theorem storeInv_registerTags (s : Store) (ts : List String) (h : StoreInv s) :
    StoreInv { s with allTags := registerTags s.allTags ts } := by
  obtain ⟨hc, hb, hnd, hnt⟩ := h
  exact ⟨hc, hb, hnd, registerTags_nodup ts s.allTags hnt⟩

theorem storeInv_createPost (s : Store) (spec : PostSpec) (t : Int)
    (h : StoreInv s) : StoreInv (createPost s spec t).2 := by
  have h1 := storeInv_prepend s spec t h
  rcases hts : spec.tags with _ | ts
  · simp only [createPost, hts]
    exact h1
  · have h2 := storeInv_registerTags _ ts h1
    simp only [createPost, hts]
    rcases ho : spec.openingArgument with _ | oa
    · simp only [ho]
      exact h2
    · simp only [ho]
      by_cases htr : jsTrim oa = ""
      · rw [if_pos htr]
        exact h2
      · rw [if_neg htr]
        exact storeInv_createArgument _ _ _ _ h2

theorem toggleInList_sides (argId : Nat) :
    ∀ (l l' : List Argument) (b : Bool),
      toggleInList argId l = some (l', b) →
      l'.map Argument.side = l.map Argument.side := by
  intro l
  induction l with
  | nil => intro l' b h; simp [toggleInList] at h
  | cons a rest ih =>
    intro l' b h
    by_cases ha : a.id = argId
    · rw [toggleInList, if_pos ha] at h
      simp only [Option.some.injEq, Prod.mk.injEq] at h
      obtain ⟨h1, _⟩ := h
      subst h1
      simp [toggleArg]
    · rw [toggleInList, if_neg ha] at h
      rcases hrec : toggleInList argId rest with _ | q
      · rw [hrec] at h; simp at h
      · rcases q with ⟨rest', b0⟩
        rw [hrec] at h
        simp only [Option.some.injEq, Prod.mk.injEq] at h
        obtain ⟨h1, _⟩ := h
        subst h1
        simp [ih rest' b0 hrec]

/-- A successful scan permutes nothing: the keys are unchanged and every
list keeps its length and its sides (only steelman fields moved). -/
theorem toggleScan_keys_sides (argId : Nat) :
    ∀ (es es' : List (Nat × List Argument)) (b : Bool),
      toggleScan argId es = some (es', b) →
      es'.map Prod.fst = es.map Prod.fst ∧
      ∀ k, ((lookupA es' k).getD []).map Argument.side =
        ((lookupA es k).getD []).map Argument.side := by
  intro es
  induction es with
  | nil => intro es' b h; simp [toggleScan] at h
  | cons kv rest ih =>
    rcases kv with ⟨pid, l⟩
    intro es' b h
    rw [toggleScan] at h
    rcases hil : toggleInList argId l with _ | p
    · rw [hil] at h
      rcases hrec : toggleScan argId rest with _ | q
      · rw [hrec] at h; simp at h
      · rcases q with ⟨rest', b0⟩
        rw [hrec] at h
        simp only [Option.some.injEq, Prod.mk.injEq] at h
        obtain ⟨h1, _⟩ := h
        subst h1
        obtain ⟨hk, hs⟩ := ih rest' b0 hrec
        refine ⟨by simp [hk], ?_⟩
        intro k
        by_cases hkp : pid = k
        · simp [lookupA, hkp]
        · simp [lookupA, hkp, hs k]
    · rcases p with ⟨l', b0⟩
      rw [hil] at h
      simp only [Option.some.injEq, Prod.mk.injEq] at h
      obtain ⟨h1, _⟩ := h
      subst h1
      refine ⟨by simp, ?_⟩
      intro k
      by_cases hkp : pid = k
      · simp [lookupA, hkp, toggleInList_sides argId l l' b0 hil]
      · simp [lookupA, hkp]

theorem countP_for_map :
    ∀ l : List Argument,
      l.countP (fun a => a.side == "for") =
        (l.map Argument.side).countP (fun sd => sd == "for") := by
  intro l
  induction l with
  | nil => rfl
  | cons a rest ih => rw [List.countP_cons, List.map_cons, List.countP_cons, ih]

theorem countP_against_map :
    ∀ l : List Argument,
      l.countP (fun a => a.side == "against") =
        (l.map Argument.side).countP (fun sd => sd == "against") := by
  intro l
  induction l with
  | nil => rfl
  | cons a rest ih => rw [List.countP_cons, List.map_cons, List.countP_cons, ih]

theorem storeInv_toggleSteelman (s : Store) (argId : Nat) (h : StoreInv s) :
    StoreInv (toggleSteelman s argId).2 := by
  rcases hscan : toggleScan argId s.args with _ | p
  · simpa [toggleSteelman, hscan] using h
  · rcases p with ⟨es', b⟩
    obtain ⟨hc, ⟨hbp, hba⟩, hnd, hnt⟩ := h
    obtain ⟨hk, hs⟩ := toggleScan_keys_sides argId s.args es' b hscan
    have hres : (toggleSteelman s argId).2 = { s with args := es' } := by
      simp [toggleSteelman, hscan]
    rw [hres]
    refine ⟨?_, ⟨hbp, ?_⟩, hnd, hnt⟩
    · intro q hq
      obtain ⟨h1, h2, h3⟩ := hc q hq
      have hsq := hs q.id
      have hlen : ((lookupA es' q.id).getD []).length =
          ((lookupA s.args q.id).getD []).length := by
        rw [← List.length_map _ Argument.side, hsq, List.length_map]
      refine ⟨?_, ?_, ?_⟩
      · show q.forCount = ((lookupA es' q.id).getD []).countP _
        rw [h1]
        show ((lookupA s.args q.id).getD []).countP _ =
          ((lookupA es' q.id).getD []).countP _
        rw [countP_for_map, countP_for_map, hsq]
      · show q.againstCount = ((lookupA es' q.id).getD []).countP _
        rw [h2]
        show ((lookupA s.args q.id).getD []).countP _ =
          ((lookupA es' q.id).getD []).countP _
        rw [countP_against_map, countP_against_map, hsq]
      · show q.argCount = ((lookupA es' q.id).getD []).length
        rw [h3, getArguments, hlen]
    · intro kv hkv
      have : kv.1 ∈ es'.map Prod.fst := List.mem_map_of_mem Prod.fst hkv
      rw [hk] at this
      obtain ⟨kv0, hkv0, hfst⟩ := List.mem_map.mp this
      rw [← hfst]
      exact hba kv0 hkv0

theorem storeInv_declareMindChange (s : Store) (pid : Nat) (txt : String)
    (h : StoreInv s) : StoreInv (declareMindChange s pid txt) := by
  obtain ⟨hc, ⟨hbp, hba⟩, hnd, hnt⟩ := h
  refine ⟨?_, ⟨?_, hba⟩, ?_, hnt⟩
  · intro q hq
    rcases updateFirstPost_mem pid _ s.posts q hq with hl | ⟨p, hp, _, rfl⟩
    · exact hc q hl
    · exact hc p hp
  · intro q hq
    rcases updateFirstPost_mem pid _ s.posts q hq with hl | ⟨p, hp, _, rfl⟩
    · exact hbp q hl
    · exact hbp p hp
  · show ((updateFirstPost s.posts pid bumpMind).map Post.id).Nodup
    rw [updateFirstPost_map_id pid bumpMind (fun p => rfl)]
    exact hnd

theorem storeInv_step (s : Store) (op : Op) (h : StoreInv s) :
    StoreInv (step s op) := by
  cases op with
  | createPost spec t => exact storeInv_createPost s spec t h
  | createArgument pid spec t => exact storeInv_createArgument s pid spec t h
  | vote argId dir => exact h
  | toggleSteelman argId => exact storeInv_toggleSteelman s argId h
  | declareMindChange pid txt => exact storeInv_declareMindChange s pid txt h
  | setCurrentPost pid => exact h

theorem storeInv_reachable (s : Store) (h : Reachable s) : StoreInv s := by
  obtain ⟨ops, rfl⟩ := h
  have general : ∀ (l : List Op) (s0 : Store), StoreInv s0 →
      StoreInv (l.foldl step s0) := by
    intro l
    induction l with
    | nil => intro s0 h0; exact h0
    | cons op rest ih => intro s0 h0; exact ih _ (storeInv_step s0 op h0)
  exact general ops initialStore storeInv_initial

/-! ### Claim C3 -/

/-- "for" and "against" never hold of the same side string, so the joint
count splits. -/
theorem countP_or_split :
    ∀ l : List Argument,
      l.countP (fun a => a.side == "for" || a.side == "against") =
        l.countP (fun a => a.side == "for") +
          l.countP (fun a => a.side == "against") := by
  intro l
  induction l with
  | nil => rfl
  | cons a rest ih =>
    rw [List.countP_cons, List.countP_cons, List.countP_cons, ih]
    cases hf : (a.side == "for") <;> cases hg : (a.side == "against")
    · simp [hf, hg]
    · simp [hf, hg]
      omega
    · simp [hf, hg]
      omega
    · have e1 : a.side = "for" := eq_of_beq hf
      have e2 : a.side = "against" := eq_of_beq hg
      rw [e1] at e2
      exact absurd e2 (by decide)

/-- C3 (confirmed): in every reachable store, each post's `forCount` and
`againstCount` equal the number of its arguments with that side and
`argCount` equals its total argument count; hence `forCount + againstCount`
is the number of its arguments sided "for" or "against", and when every
argument of the post carries one of those two sides (as every argument
created by `createPost`'s opening statement and by the pages' for/against
buttons does) `argCount = forCount + againstCount` — K "for" plus M
"against" creations yield forCount = K, againstCount = M, argCount = K + M. -/
theorem C3_post_counters_invariant (s : Store) (hr : Reachable s) (p : Post)
    (hp : p ∈ s.posts) :
    p.forCount = (getArguments s p.id).countP (fun a => a.side == "for") ∧
    p.againstCount =
      (getArguments s p.id).countP (fun a => a.side == "against") ∧
    p.argCount = (getArguments s p.id).length ∧
    p.forCount + p.againstCount =
      (getArguments s p.id).countP
        (fun a => a.side == "for" || a.side == "against") ∧
    ((∀ a ∈ getArguments s p.id, a.side = "for" ∨ a.side = "against") →
      p.argCount = p.forCount + p.againstCount) := by
  obtain ⟨hc, _, _, _⟩ := storeInv_reachable s hr
  obtain ⟨h1, h2, h3⟩ := hc p hp
  refine ⟨h1, h2, h3, ?_, ?_⟩
  · rw [h1, h2, countP_or_split]
  · intro hall
    rw [h3, h1, h2, ← countP_or_split]
    refine (List.countP_eq_length.mpr ?_).symm
    intro a ha
    rcases hall a ha with h | h <;> simp [h]

/-- The opening call of the C3 witness run. -/
def demoSpec : PostSpec :=
  { type := "debate", title := "T", body := "B", tags := some ["ethics"],
    position := some "for", confidence := none,
    openingArgument := some "A", whatWouldChangeMyMind := none }

/-- Create a debate with a "for" opening argument, then one "against"
argument. -/
def demoOps : List Op :=
  [Op.createPost demoSpec 0,
   Op.createArgument 0
     { side := "against", body := "c", author := none,
       whatWouldChangeMyMind := none } 0]

def demoStore : Store := demoOps.foldl step initialStore

/-- The post as `demoOps` leaves it. -/
def demoPost : Post :=
  { id := 0, type := "debate", title := "T", body := "B", tags := ["ethics"],
    position := some "for", confidence := none, whatWouldChangeMyMind := none,
    author := "You", createdAt := 0, argCount := 2, forCount := 1,
    againstCount := 1, mindChanges := 0 }

/-- Witness for C3: after one "for" and one "against" creation the counters
read 1, 1 and 2. -/
theorem C3_post_counters_invariant_witness :
    demoPost ∈ demoStore.posts ∧ demoPost.forCount = 1 ∧
    demoPost.againstCount = 1 ∧ demoPost.argCount = 2 ∧
    demoPost.argCount = demoPost.forCount + demoPost.againstCount := by
  have hmem : demoPost ∈ demoStore.posts := by decide
  have h := C3_post_counters_invariant demoStore ⟨demoOps, rfl⟩ demoPost hmem
  exact ⟨hmem, h.1.trans (by decide), h.2.1.trans (by decide),
    h.2.2.1.trans (by decide), h.2.2.2.2 (by decide)⟩

/-! ### Claim C4 -/

theorem createPost_allTags (s : Store) (spec : PostSpec) (t : Int)
    (ts : List String) (hts : spec.tags = some ts) :
    (createPost s spec t).2.allTags = registerTags s.allTags ts := by
  simp only [createPost, hts]
  split
  · rfl
  · split_ifs <;> rfl

/-- C4 (amended): supplying a tag list grows the vocabulary by the number of
DISTINCT supplied tags not already present, and no public call ever loses a
tag from the vocabulary. -/
theorem C4_tag_growth_amended (s : Store) (hs : Reachable s) (spec : PostSpec)
    (t : Int) (ts : List String) (hts : spec.tags = some ts) :
    (createPost s spec t).2.allTags.length =
      s.allTags.length + ((ts.filter (fun x => x ∉ s.allTags)).toFinset).card ∧
    ∀ op : Op, s.allTags ⊆ (step s op).allTags := by
  obtain ⟨_, _, _, hnt⟩ := storeInv_reachable s hs
  constructor
  · rw [createPost_allTags s spec t ts hts]
    exact registerTags_length ts s.allTags hnt
  · intro op
    cases op with
    | createPost spec2 t2 =>
      rcases hts2 : spec2.tags with _ | ts2
      · show s.allTags ⊆ (createPost s spec2 t2).2.allTags
        have he : (createPost s spec2 t2).2.allTags = s.allTags := by
          simp [createPost, hts2]
        rw [he]
        exact fun x h => h
      · show s.allTags ⊆ (createPost s spec2 t2).2.allTags
        rw [createPost_allTags s spec2 t2 ts2 hts2]
        exact registerTags_sub ts2 s.allTags
    | createArgument pid spec2 t2 => exact fun x h => h
    | vote argId dir => exact fun x h => h
    | toggleSteelman argId =>
      rcases hscan : toggleScan argId s.args with _ | p
      · show s.allTags ⊆ (toggleSteelman s argId).2.allTags
        simp [toggleSteelman, hscan]
      · rcases p with ⟨es', b⟩
        show s.allTags ⊆ (toggleSteelman s argId).2.allTags
        simp [toggleSteelman, hscan]
    | declareMindChange pid txt => exact fun x h => h
    | setCurrentPost pid => exact fun x h => h

/-- A creation spec whose tag list repeats one unknown tag. -/
def dupSpec : PostSpec :=
  { type := "discussion", title := "T", body := "B",
    tags := some ["zzz", "zzz"], position := none, confidence := none,
    openingArgument := none, whatWouldChangeMyMind := none }

/-- C4 is false as stated when the supplied list repeats a new tag: the
vocabulary grows by 1, yet 2 of the supplied tags are "not already present
in the vocabulary". -/
theorem C4_duplicate_tags_counterexample :
    (createPost initialStore dupSpec 0).2.allTags.length =
      initialStore.allTags.length + 1 ∧
    (["zzz", "zzz"].filter (fun x => x ∉ initialStore.allTags)).length = 2 := by
  constructor
  · decide
  · decide

/-- Witness for C4 at a concrete reachable store and tag list. -/
theorem C4_tag_growth_amended_witness :
    (createPost initialStore dupSpec 0).2.allTags.length =
      initialStore.allTags.length + 1 ∧
    initialStore.allTags ⊆ (step initialStore (Op.setCurrentPost 0)).allTags := by
  have h := C4_tag_growth_amended initialStore ⟨[], rfl⟩ dupSpec 0
    ["zzz", "zzz"] rfl
  exact ⟨h.1.trans (by decide), h.2 (Op.setCurrentPost 0)⟩

/-! ### Claim C6 -/

/-- A `createPost` call with the `tags` property omitted. -/
def noTagsSpec : PostSpec :=
  { type := "discussion", title := "T", body := "B", tags := none,
    position := none, confidence := none, openingArgument := none,
    whatWouldChangeMyMind := none }

/-- C6 names a real failure the code has: `createPost` with `tags` omitted
throws a `TypeError` at line 74 (`tags.forEach` on `undefined`) — after the
post was already inserted — so not every input completes without raising.
Every `createPost` call that does supply a tag list returns `ok`; the other
public operations are total by construction in this embedding, matching the
code, whose only unguarded property access is line 74. -/
theorem C6_createPost_missing_tags_raises :
    (createPost initialStore noTagsSpec 0).1 =
      Except.error "TypeError: tags is undefined" ∧
    (createPost initialStore noTagsSpec 0).2.posts.length = 1 ∧
    ∀ (s : Store) (spec : PostSpec) (t : Int) (ts : List String),
      spec.tags = some ts → ∃ p, (createPost s spec t).1 = Except.ok p := by
  refine ⟨rfl, rfl, ?_⟩
  intro s spec t ts hts
  simp only [createPost, hts]
  split
  · exact ⟨_, rfl⟩
  · split_ifs
    · exact ⟨_, rfl⟩
    · exact ⟨_, rfl⟩

/-! ### Claim C9 -/

theorem getArguments_createArgument (s : Store) (pid : Nat) (spec : ArgSpec)
    (t : Int) (k : Nat) :
    getArguments (createArgument s pid spec t).2 k =
      if k = pid then
        (createArgument s pid spec t).1 :: getArguments s pid
      else getArguments s k := by
  by_cases hk : k = pid
  · subst hk
    rw [if_pos rfl]
    show (lookupA (setA s.args k _) k).getD [] = _
    rw [lookupA_setA_self]
    rfl
  · rw [if_neg hk]
    show (lookupA (setA s.args pid _) k).getD [] = _
    rw [lookupA_setA_ne pid k _ hk]
    rfl

theorem openingSide_valid (pos : Option String) :
    openingSide pos = "for" ∨ openingSide pos = "against" := by
  unfold openingSide
  split_ifs
  · left; rfl
  · right; rfl
  · left; rfl

/-- C9 is false as stated: `createArgument` stores the caller-supplied side
verbatim, so a call with side "neutral" produces a stored argument whose
side is neither "for" nor "against". -/
theorem C9_side_counterexample :
    ((createArgument initialStore 5
        { side := "neutral", body := "b", author := none,
          whatWouldChangeMyMind := none } 0).1).side = "neutral" ∧
    ¬("neutral" = "for" ∨ "neutral" = "against") := by
  constructor
  · rfl
  · decide

/-- C9 (amended): `createArgument` copies the caller's side string into the
argument unchanged — so the invariant holds exactly for the sides callers
pass — while every argument `createPost` itself adds (the opening argument)
has its side coerced to "for" or "against". -/
theorem C9_argument_sides_amended :
    (∀ (s : Store) (pid : Nat) (spec : ArgSpec) (t : Int),
        ((createArgument s pid spec t).1).side = spec.side) ∧
    (∀ (s : Store) (spec : PostSpec) (t : Int) (pid : Nat) (a : Argument),
        a ∈ getArguments (createPost s spec t).2 pid →
        a ∈ getArguments s pid ∨ a.side = "for" ∨ a.side = "against") := by
  constructor
  · intro s pid spec t; rfl
  · intro s spec t pid a ha
    rcases hts : spec.tags with _ | ts
    · left
      have he : getArguments (createPost s spec t).2 pid =
          getArguments s pid := by
        simp [createPost, hts, getArguments]
      rwa [he] at ha
    · rcases ho : spec.openingArgument with _ | oa
      · left
        have he : getArguments (createPost s spec t).2 pid =
            getArguments s pid := by
          simp [createPost, hts, ho, getArguments]
        rwa [he] at ha
      · by_cases htr : jsTrim oa = ""
        · left
          have he : getArguments (createPost s spec t).2 pid =
              getArguments s pid := by
            simp [createPost, hts, ho, htr, getArguments]
          rwa [he] at ha
        · have hred : (createPost s spec t).2 =
              (createArgument
                { s with posts := mkPost s spec t :: s.posts,
                         allTags := registerTags s.allTags ts,
                         nextUid := s.nextUid + 1 }
                (mkPost s spec t).id
                { side := openingSide spec.position, body := oa,
                  author := some "You",
                  whatWouldChangeMyMind := spec.whatWouldChangeMyMind }
                t).2 := by
            simp [createPost, hts, ho, htr]
          rw [hred, getArguments_createArgument] at ha
          by_cases hk : pid = (mkPost s spec t).id
          · rw [if_pos hk] at ha
            rcases List.mem_cons.mp ha with rfl | hm
            · right
              exact openingSide_valid spec.position
            · left
              rw [hk]
              exact hm
          · rw [if_neg hk] at ha
            left
            exact ha

end Agora
